import Mathlib

/-!
Verification development for the pagewielder repository.

The Python sources (src/pagewielder/cli.py and src/pagewielder/core.py) are
shallowly embedded below:

* Python strings become `String` / `List Char`; `str.split`, `int(...)` and
  list indexing (including negative indices) are modelled by executable
  functions (`splitOnceColon`, `splitOnComma`, `pyInt`, `pyIndex`).
* The page-range parser `parse_page_range` raises `ValueError`; here it
  returns `Except String (Int × Int)` carrying the same message text.
  Python's decimal rendering of an integer is modelled by `intRepr`.
  (Underscore separators and non-ASCII digits of Python's `int` are not
  modelled; all claims concern plain decimal tokens.)
* The dict built by `map_dimensions_to_pages` (insertion-ordered, as Python
  dicts are) becomes an association list `List (α × Finset ℕ)` over an
  arbitrary type `α` of page dimensions with decidable equality; page sets
  become `Finset ℕ` of 1-based ordinals.
* The interactive selection loop of `select_dimensions` reads a script of
  stdin lines; exhausting the script (the real loop would block) is `none`.
* `filter_command` / `excerpt_command` return a `CmdOutcome` recording the
  exit code, the files created by `tempfile.NamedTemporaryFile` (which
  creates the file on disk), the saved output (path and page list) and the
  message printed.
-/

/-- Decimal digit characters of `n`, most significant first, with enough fuel
(`n + 1` suffices since `n / 10` strictly decreases). -/
def natDigsAux : Nat → Nat → List Char
  | 0, _ => []
  | fuel + 1, n =>
    if n < 10 then [Nat.digitChar n]
    else natDigsAux fuel (n / 10) ++ [Nat.digitChar (n % 10)]

/-- Decimal digit characters of a natural number, most significant first
(the rendering used by Python's f-strings for a nonnegative int). -/
def natDigs (n : Nat) : List Char := natDigsAux (n + 1) n

/-- Python's decimal rendering of an int (`f"{i}"`). -/
def intRepr (i : Int) : String :=
  if i < 0 then String.mk ('-' :: natDigs i.natAbs) else String.mk (natDigs i.natAbs)

/-- Value of a list of decimal digit characters (usual left fold). -/
def digitsVal (cs : List Char) : Nat := cs.foldl (fun a c => 10 * a + (c.toNat - 48)) 0

/-- Strip whitespace from both ends (Python `int` ignores surrounding whitespace). -/
def pyStrip (cs : List Char) : List Char :=
  ((cs.dropWhile Char.isWhitespace).reverse.dropWhile Char.isWhitespace).reverse

/-- Model of Python `int(str)` on a stripped character list: optional sign,
then one or more decimal digits; `none` models `ValueError`. -/
def pyIntChars : List Char → Option Int
  | [] => none
  | c :: cs =>
    if c = '-' then
      if cs ≠ [] ∧ cs.all Char.isDigit then some (-(digitsVal cs : Int)) else none
    else if c = '+' then
      if cs ≠ [] ∧ cs.all Char.isDigit then some ((digitsVal cs : Int)) else none
    else if (c :: cs).all Char.isDigit then some ((digitsVal (c :: cs) : Int)) else none

/-- Model of Python `int(str)`. -/
def pyInt (s : String) : Option Int := pyIntChars (pyStrip s.data)

/-- Split a character list at the first colon, if any. -/
def breakAtColon : List Char → List Char × Option (List Char)
  | [] => ([], none)
  | c :: cs =>
    if c = ':' then ([], some cs)
    else
      let r := breakAtColon cs
      (c :: r.1, r.2)

/-- Model of Python `page_range.split(":", 1)` (cli.py line 40). -/
def splitOnceColon (s : String) : List String :=
  match breakAtColon s.data with
  | (a, none) => [String.mk a]
  | (a, some b) => [String.mk a, String.mk b]

/-- Model of Python substring containment (`"out of range" in str(e)`). -/
def containsSeg (pat : List Char) : List Char → Bool
  | [] => pat.isEmpty
  | c :: cs => pat.isPrefixOf (c :: cs) || containsSeg pat cs

def outOfRangeMsg (p T : Int) : String :=
  "Page " ++ intRepr p ++ " is out of range (1-" ++ intRepr T ++ ")"

def invalidNumberMsg (s : String) : String := "Invalid page number: " ++ s

def startLowMsg (s : Int) : String := "Start page " ++ intRepr s ++ " must be >= 1"

def endHighMsg (e T : Int) : String :=
  "End page " ++ intRepr e ++ " exceeds total pages (" ++ intRepr T ++ ")"

def startGtEndMsg (s e : Int) : String :=
  "Start page " ++ intRepr s ++ " must be <= end page " ++ intRepr e

def formatMsg (s : String) : String := "Invalid page range format: " ++ s

/-- Message of Python's `ValueError` raised by `int` on a bad literal. -/
def invalidLiteralMsg (s : String) : String :=
  "invalid literal for int() with base 10: " ++ String.mk [Char.ofNat 39] ++ s ++
    String.mk [Char.ofNat 39]

/-- The `except ValueError` handler of the single-page branch of
`parse_page_range` (cli.py lines 49-52): re-raise messages that contain
"out of range", otherwise raise "Invalid page number: ...". -/
def singleExcept (p0 msg : String) : String :=
  if containsSeg ("out of range").data msg.data then msg else invalidNumberMsg p0

/-- Embedding of `parse_page_range` (cli.py lines 27-71). -/
def parse_page_range (page_range : String) (total_pages : Int) : Except String (Int × Int) :=
  match splitOnceColon page_range with
  | [p0] =>
    match pyInt p0 with
    | some page =>
      if page < 1 ∨ page > total_pages then
        Except.error (singleExcept p0 (outOfRangeMsg page total_pages))
      else Except.ok (page, page)
    | none => Except.error (singleExcept p0 (invalidLiteralMsg p0))
  | [start_str, end_str] =>
    match (if start_str = "" then some (1 : Int) else pyInt start_str) with
    | none => Except.error (invalidLiteralMsg start_str)
    | some start =>
      match (if end_str = "" then some total_pages else pyInt end_str) with
      | none => Except.error (invalidLiteralMsg end_str)
      | some stop =>
        if start < 1 then Except.error (startLowMsg start)
        else if stop > total_pages then Except.error (endHighMsg stop total_pages)
        else if start > stop then Except.error (startGtEndMsg start stop)
        else Except.ok (start, stop)
  | _ => Except.error (formatMsg page_range)

/-- Model of Python `range(a, b)` as a list of ints. -/
def intRange (a b : Int) : List Int :=
  (List.range (b - a).toNat).map fun t : ℕ => a + (t : Int)

variable {α : Type} [DecidableEq α]

/-- One `ret[dimensions].add(i + 1)` step on a defaultdict modelled as an
insertion-ordered association list: extend the set of an existing key in
place, or append a fresh key at the end. -/
def dictInsert : List (α × Finset ℕ) → α → ℕ → List (α × Finset ℕ)
  | [], k, n => [(k, {n})]
  | (k', s) :: rest, k, n =>
    if k' = k then (k', insert n s) :: rest else (k', s) :: dictInsert rest k n

/-- The `for i, page in enumerate(pdf.pages)` loop of `map_dimensions_to_pages`,
with the 1-based ordinal carried explicitly. -/
def buildIndex : List (α × Finset ℕ) → ℕ → List α → List (α × Finset ℕ)
  | acc, _, [] => acc
  | acc, i, d :: ds => buildIndex (dictInsert acc d i) (i + 1) ds

/-- Embedding of `map_dimensions_to_pages` (core.py lines 24-40); a document
is abstracted to the list of its pages' dimensions, in page order. -/
def map_dimensions_to_pages (pages : List α) : List (α × Finset ℕ) :=
  buildIndex [] 1 pages

/-- Python dict lookup `d[k]` on the association list (∅ if absent; in the
code every lookup is at a present key). -/
def lookupSet : List (α × Finset ℕ) → α → Finset ℕ
  | [], _ => ∅
  | (k', s) :: rest, k => if k' = k then s else lookupSet rest k

/-- `dimensions_list = list(dimensions_to_pages.keys())` (cli.py line 85). -/
def dimensions_list (d : List (α × Finset ℕ)) : List α := d.map Prod.fst

/-- Order of first appearance of the distinct elements of a list, given the
elements already seen. -/
def dedupNew (seen : List α) : List α → List α
  | [] => []
  | d :: ds => if d ∈ seen then dedupNew seen ds else d :: dedupNew (seen ++ [d]) ds

/-- The set of (index + i) over positions of `ps` holding `k`. -/
def idxSet (ps : List α) (i : ℕ) (k : α) : Finset ℕ :=
  ((Finset.range ps.length).filter fun t => ps[t]? = some k).image fun t => t + i

/-- Union of all page sets of the index. -/
def unionSets (d : List (α × Finset ℕ)) : Finset ℕ := d.foldr (fun e s => e.2 ∪ s) ∅

/-- Result of one round of the selection prompt. -/
inductive SelStep (α : Type) where
  | cancelled : SelStep α
  | selected : Finset α → SelStep α
  | invalid : SelStep α
deriving DecidableEq

/-- Splitting a character list on commas (no maxsplit). -/
def splitCommaChars : List Char → List (List Char)
  | [] => [[]]
  | c :: cs =>
    if c = ',' then [] :: splitCommaChars cs
    else
      match splitCommaChars cs with
      | [] => [[c]]
      | t :: ts => (c :: t) :: ts

/-- Model of Python `user_input.split(",")`. -/
def splitOnComma (s : String) : List String := (splitCommaChars s.data).map String.mk

/-- Model of Python list indexing `l[i]`, including negative indices
(`l[-k]` is `l[len l - k]` when `k ≤ len l`); `none` models `IndexError`. -/
def pyIndex (l : List α) (i : Int) : Option α :=
  if 0 ≤ i then l[i.toNat]?
  else if i.natAbs ≤ l.length then l[l.length - i.natAbs]?
  else none

/-- `dimensions_list[int(index)]` for one token: `none` models either the
`ValueError` from `int` or the `IndexError` from indexing. -/
def resolveToken (dlist : List α) (t : String) : Option α := (pyInt t).bind (pyIndex dlist)

/-- The set comprehension `{dimensions_list[int(index)] for index in selected}`:
tokens are resolved left to right and the first exception aborts. -/
def resolveAll (dlist : List α) : List String → Option (List α)
  | [] => some []
  | t :: ts =>
    match resolveToken dlist t with
    | none => none
    | some d =>
      match resolveAll dlist ts with
      | none => none
      | some ds => some (d :: ds)

/-- One round of the `while True` prompt loop of `select_dimensions`
(cli.py lines 94-102). -/
def selectStep (dlist : List α) (line : String) : SelStep α :=
  if line = "" then SelStep.cancelled
  else
    match resolveAll dlist (splitOnComma line) with
    | some picks => SelStep.selected picks.toFinset
    | none => SelStep.invalid

def invalidInputMsg : String := "Invalid input. Please enter valid indices separated by commas.\n"

/-- The retry loop of `select_dimensions`, reading lines from a stdin script.
The first component is `none` when the script is exhausted (the real loop
would block); the second lists the error messages printed along the way. -/
def selectLoop (dlist : List α) : List String → Option (Option (Finset α)) × List String
  | [] => (none, [])
  | line :: rest =>
    match selectStep dlist line with
    | SelStep.cancelled => (some none, [])
    | SelStep.selected s => (some (some s), [])
    | SelStep.invalid =>
      let r := selectLoop dlist rest
      (r.1, invalidInputMsg :: r.2)

/-- Embedding of `select_dimensions` (cli.py lines 74-102): `some none` is the
Python `None` (user cancelled), `some (some s)` a returned selection. -/
def select_dimensions (d : List (α × Finset ℕ)) (stdin : List String) :
    Option (Option (Finset α)) × List String :=
  selectLoop (dimensions_list d) stdin

/-- Observable outcome of one command invocation: exit code, files created by
`tempfile.NamedTemporaryFile` (which creates the file on disk), the document
saved (output path and its pages, by dimension) and the message printed. -/
structure CmdOutcome (α : Type) where
  exitCode : Int
  created : List String
  saved : Option (String × List α)
  message : Option String
deriving DecidableEq

def precondMsg : String := "Input and output paths must be different."

def cancelInfoMsg : String := "No page sets selected. No output file created."

/-- Embedding of `filter_command` (cli.py lines 105-147). `outputArg` is the
optional `-o` path; `tmp` is the path the temp-file generator would pick. -/
def filter_command (input : String) (outputArg : Option String) (tmp : String)
    (pages : List α) (stdin : List String) : Option (CmdOutcome α) :=
  let output_path := outputArg.getD tmp
  let created := if outputArg.isSome then [] else [tmp]
  if input = output_path then some ⟨1, created, none, some precondMsg⟩
  else
    let d := map_dimensions_to_pages pages
    match (select_dimensions d stdin).1 with
    | none => none
    | some none => some ⟨1, created, none, some cancelInfoMsg⟩
    | some (some sel) =>
      let selected_pages : Finset ℕ := sel.sup (lookupSet d)
      let kept := ((List.enumFrom 1 pages).filter fun p => p.1 ∉ selected_pages).map Prod.snd
      some ⟨0, created, some (output_path, kept), some ("Filtered PDF saved as " ++ output_path)⟩

/-- Embedding of `excerpt_command` (cli.py lines 150-190). -/
def excerpt_command (input : String) (outputArg : Option String) (tmp : String)
    (pages : List α) (rangeStr : String) : CmdOutcome α :=
  let output_path := outputArg.getD tmp
  let created := if outputArg.isSome then [] else [tmp]
  if input = output_path then ⟨1, created, none, some precondMsg⟩
  else
    match parse_page_range rangeStr (pages.length : Int) with
    | Except.error e => ⟨1, created, none, some ("Error: " ++ e)⟩
    | Except.ok (s, e) =>
      let out := (intRange (s - 1) e).filterMap fun i => pages[i.toNat]?
      ⟨0, created, some (output_path, out),
        some ("Extracted " ++ intRepr (e - s + 1) ++ " page" ++
          (if e - s + 1 ≠ 1 then "s" else "") ++ " (" ++ intRepr s ++ ":" ++ intRepr e ++
          ") to " ++ output_path)⟩

/-! ### Character, digit-string and message facts -/

theorem data_mk (cs : List Char) : (String.mk cs).data = cs := rfl

theorem digitChar_bounds :
    ∀ d : Nat, d < 10 → 48 ≤ (Nat.digitChar d).toNat ∧ (Nat.digitChar d).toNat ≤ 57 := by
  decide

theorem natDigsAux_chars (fuel : Nat) :
    ∀ n : Nat, ∀ c ∈ natDigsAux fuel n, 48 ≤ c.toNat ∧ c.toNat ≤ 57 := by
  induction fuel with
  | zero => intro n c hc; simp [natDigsAux] at hc
  | succ fuel ih =>
    intro n c hc
    by_cases h : n < 10
    · simp [natDigsAux, h] at hc
      subst hc; exact digitChar_bounds n h
    · simp [natDigsAux, h] at hc
      rcases hc with hc | hc
      · exact ih _ c hc
      · subst hc; exact digitChar_bounds _ (Nat.mod_lt _ (by omega))

theorem natDigs_chars (n : Nat) : ∀ c ∈ natDigs n, 48 ≤ c.toNat ∧ c.toNat ≤ 57 :=
  natDigsAux_chars (n + 1) n

theorem intRepr_chars (i : Int) :
    ∀ c ∈ (intRepr i).data, c = '-' ∨ (48 ≤ c.toNat ∧ c.toNat ≤ 57) := by
  intro c hc
  unfold intRepr at hc
  by_cases h : i < 0 <;> simp [h, data_mk] at hc
  · rcases hc with hc | hc
    · exact Or.inl hc
    · exact Or.inr (natDigs_chars _ c hc)
  · exact Or.inr (natDigs_chars _ c hc)

theorem isDigit_ne_syms {c : Char} (h : c.isDigit = true) :
    c ≠ ':' ∧ c ≠ '-' ∧ c ≠ '+' := by
  refine ⟨?_, ?_, ?_⟩ <;> rintro rfl <;> exact absurd h (by decide)

theorem isDigit_not_ws {c : Char} (h : c.isDigit = true) : c.isWhitespace = false := by
  by_contra hw
  rw [Bool.not_eq_false] at hw
  have h4 : c = ' ' ∨ c = '\t' ∨ c = '\r' ∨ c = '\n' := by
    have := hw; simp [Char.isWhitespace] at this; tauto
  rcases h4 with rfl | rfl | rfl | rfl <;> exact absurd h (by decide)

theorem pyStrip_digits {a : List Char} (ha : ∀ c ∈ a, c.isDigit = true) : pyStrip a = a := by
  have h1 : a.dropWhile Char.isWhitespace = a := by
    cases a with
    | nil => rfl
    | cons c cs =>
      rw [List.dropWhile_cons, if_neg (by simp [isDigit_not_ws (ha c (by simp))])]
  have h2 : a.reverse.dropWhile Char.isWhitespace = a.reverse := by
    cases hr : a.reverse with
    | nil => rfl
    | cons c cs =>
      have hmem : c ∈ a := by rw [← List.mem_reverse, hr]; simp
      rw [List.dropWhile_cons, if_neg (by simp [isDigit_not_ws (ha c hmem)])]
  unfold pyStrip
  rw [h1, h2, List.reverse_reverse]

theorem pyIntChars_digits {a : List Char} (ha : ∀ c ∈ a, c.isDigit = true) (hne : a ≠ []) :
    pyIntChars a = some ((digitsVal a : Nat) : Int) := by
  cases a with
  | nil => exact absurd rfl hne
  | cons c cs =>
    obtain ⟨-, h2, h3⟩ := isDigit_ne_syms (ha c (by simp))
    rw [pyIntChars, if_neg h2, if_neg h3, if_pos (List.all_eq_true.mpr ha)]

theorem pyInt_digits {a : List Char} (ha : ∀ c ∈ a, c.isDigit = true) (hne : a ≠ []) :
    pyInt (String.mk a) = some ((digitsVal a : Nat) : Int) := by
  unfold pyInt
  rw [data_mk, pyStrip_digits ha]
  exact pyIntChars_digits ha hne

theorem digits_ne_colon {a : List Char} (ha : ∀ c ∈ a, c.isDigit = true) :
    ∀ c ∈ a, c ≠ ':' := fun c hc => (isDigit_ne_syms (ha c hc)).1

/-! ### splitOnceColon facts -/

theorem breakAtColon_no (a : List Char) (h : ∀ c ∈ a, c ≠ ':') :
    breakAtColon a = (a, none) := by
  induction a with
  | nil => rfl
  | cons c cs ih =>
    rw [breakAtColon, if_neg (h c (by simp))]
    simp [ih fun x hx => h x (by simp [hx])]

theorem breakAtColon_mid (a b : List Char) (h : ∀ c ∈ a, c ≠ ':') :
    breakAtColon (a ++ ':' :: b) = (a, some b) := by
  induction a with
  | nil => simp [breakAtColon]
  | cons c cs ih =>
    rw [List.cons_append, breakAtColon, if_neg (h c (by simp))]
    simp [ih fun x hx => h x (by simp [hx])]

theorem splitOnceColon_nocolon (a : List Char) (h : ∀ c ∈ a, c ≠ ':') :
    splitOnceColon (String.mk a) = [String.mk a] := by
  unfold splitOnceColon
  rw [data_mk, breakAtColon_no a h]

theorem splitOnceColon_mid (a b : List Char) (h : ∀ c ∈ a, c ≠ ':') :
    splitOnceColon (String.mk (a ++ ':' :: b)) = [String.mk a, String.mk b] := by
  unfold splitOnceColon
  rw [data_mk, breakAtColon_mid a b h]

theorem splitOnceColon_len (s : String) :
    (splitOnceColon s).length = 1 ∨ (splitOnceColon s).length = 2 := by
  unfold splitOnceColon
  rcases hb : breakAtColon s.data with ⟨a, _ | b⟩ <;> simp

/-! ### containsSeg facts -/

theorem isPrefixOf_self_append (p t : List Char) : p.isPrefixOf (p ++ t) = true := by
  induction p with
  | nil => simp [List.isPrefixOf]
  | cons c cs ih => simp [List.isPrefixOf, ih]

theorem containsSeg_of_isPrefixOf {pat l : List Char} (h : pat.isPrefixOf l = true) :
    containsSeg pat l = true := by
  cases l with
  | nil =>
    cases pat with
    | nil => rfl
    | cons c cs => simp [List.isPrefixOf] at h
  | cons c cs => simp [containsSeg, h]

theorem containsSeg_cons {pat l : List Char} (c : Char) (h : containsSeg pat l = true) :
    containsSeg pat (c :: l) = true := by
  simp [containsSeg, h]

theorem containsSeg_append_right {pat l : List Char} (x : List Char)
    (h : containsSeg pat l = true) : containsSeg pat (x ++ l) = true := by
  induction x with
  | nil => exact h
  | cons c cs ih => exact containsSeg_cons c ih

theorem containsSeg_self_append (pat t : List Char) : containsSeg pat (pat ++ t) = true :=
  containsSeg_of_isPrefixOf (isPrefixOf_self_append pat t)

theorem outOfRange_containsSeg (p T : Int) :
    containsSeg ("out of range").data (outOfRangeMsg p T).data = true := by
  have hd : (outOfRangeMsg p T).data =
      (("Page ").data ++ (intRepr p).data ++ (" is ").data) ++
        (("out of range").data ++ ((" (1-").data ++ (intRepr T).data ++ (")").data)) := by
    simp [outOfRangeMsg, String.data_append, List.append_assoc]
  rw [hd]
  exact containsSeg_append_right _ (containsSeg_self_append _ _)

theorem singleExcept_outOfRange (p0 : String) (p T : Int) :
    singleExcept p0 (outOfRangeMsg p T) = outOfRangeMsg p T := by
  unfold singleExcept
  rw [if_pos (outOfRange_containsSeg p T)]

/-! ### Distinctness of the parser's error messages -/

theorem string_ne_of_data_get {s t : String} (n : ℕ) (h : s.data[n]? ≠ t.data[n]?) :
    s ≠ t := fun he => h (by rw [he])

theorem headq_append {x : List Char} (y : List Char) {c : Char} (h : x[0]? = some c) :
    (x ++ y)[0]? = some c := by
  cases x with
  | nil => simp at h
  | cons a t => simpa using h

theorem data0_outOfRange (p T : Int) : (outOfRangeMsg p T).data[0]? = some 'P' := by
  have hd : (outOfRangeMsg p T).data =
      ("Page ").data ++ ((intRepr p).data ++ (" is out of range (1-").data ++
        (intRepr T).data ++ (")").data) := by
    simp [outOfRangeMsg, String.data_append, List.append_assoc]
  rw [hd]
  exact headq_append _ rfl

theorem data0_invalidNumber (s : String) : (invalidNumberMsg s).data[0]? = some 'I' := by
  have hd : (invalidNumberMsg s).data = ("Invalid page number: ").data ++ s.data := by
    simp [invalidNumberMsg, String.data_append]
  rw [hd]
  exact headq_append _ rfl

theorem data0_invalidLiteral (s : String) : (invalidLiteralMsg s).data[0]? = some 'i' := by
  have hd : (invalidLiteralMsg s).data =
      ("invalid literal for int() with base 10: ").data ++
        ([Char.ofNat 39] ++ s.data ++ [Char.ofNat 39]) := by
    simp [invalidLiteralMsg, String.data_append, List.append_assoc, data_mk]
  rw [hd]
  exact headq_append _ rfl

theorem data0_startLow (s : Int) : (startLowMsg s).data[0]? = some 'S' := by
  have hd : (startLowMsg s).data =
      ("Start page ").data ++ ((intRepr s).data ++ (" must be >= 1").data) := by
    simp [startLowMsg, String.data_append, List.append_assoc]
  rw [hd]
  exact headq_append _ rfl

theorem data0_endHigh (e T : Int) : (endHighMsg e T).data[0]? = some 'E' := by
  have hd : (endHighMsg e T).data =
      ("End page ").data ++ ((intRepr e).data ++ (" exceeds total pages (").data ++
        (intRepr T).data ++ (")").data) := by
    simp [endHighMsg, String.data_append, List.append_assoc]
  rw [hd]
  exact headq_append _ rfl

theorem data0_startGtEnd (s e : Int) : (startGtEndMsg s e).data[0]? = some 'S' := by
  have hd : (startGtEndMsg s e).data =
      ("Start page ").data ++ ((intRepr s).data ++ (" must be <= end page ").data ++
        (intRepr e).data) := by
    simp [startGtEndMsg, String.data_append, List.append_assoc]
  rw [hd]
  exact headq_append _ rfl

theorem data0_format (s : String) : (formatMsg s).data[0]? = some 'I' := by
  have hd : (formatMsg s).data = ("Invalid page range format: ").data ++ s.data := by
    simp [formatMsg, String.data_append]
  rw [hd]
  exact headq_append _ rfl

theorem data13_invalidNumber (s : String) : (invalidNumberMsg s).data[13]? = some 'n' := by
  have hd : (invalidNumberMsg s).data = ("Invalid page number: ").data ++ s.data := by
    simp [invalidNumberMsg, String.data_append]
  rw [hd, List.getElem?_append_left (by decide)]
  rfl

theorem data13_format (s : String) : (formatMsg s).data[13]? = some 'r' := by
  have hd : (formatMsg s).data = ("Invalid page range format: ").data ++ s.data := by
    simp [formatMsg, String.data_append]
  rw [hd, List.getElem?_append_left (by decide)]
  rfl

theorem lt_mem_startGtEnd (s e : Int) : '<' ∈ (startGtEndMsg s e).data := by
  have hd : (startGtEndMsg s e).data =
      ("Start page ").data ++ ((intRepr s).data ++ (" must be <= end page ").data ++
        (intRepr e).data) := by
    simp [startGtEndMsg, String.data_append, List.append_assoc]
  rw [hd]
  simp only [List.mem_append]
  exact Or.inr (Or.inl (Or.inr (by decide)))

theorem lt_not_mem_startLow (s : Int) : '<' ∉ (startLowMsg s).data := by
  intro hmem
  have hd : (startLowMsg s).data =
      ("Start page ").data ++ ((intRepr s).data ++ (" must be >= 1").data) := by
    simp [startLowMsg, String.data_append, List.append_assoc]
  rw [hd] at hmem
  simp only [List.mem_append] at hmem
  rcases hmem with h | h | h
  · exact absurd h (by decide)
  · rcases intRepr_chars s _ h with h' | h'
    · exact absurd h' (by decide)
    · have : ('<').toNat = 60 := by decide
      omega
  · exact absurd h (by decide)

theorem outOfRange_ne_startLow (p T u : Int) : outOfRangeMsg p T ≠ startLowMsg u :=
  string_ne_of_data_get 0 (by rw [data0_outOfRange, data0_startLow]; decide)

theorem outOfRange_ne_endHigh (p T e u : Int) : outOfRangeMsg p T ≠ endHighMsg e u :=
  string_ne_of_data_get 0 (by rw [data0_outOfRange, data0_endHigh]; decide)

theorem outOfRange_ne_startGtEnd (p T u v : Int) : outOfRangeMsg p T ≠ startGtEndMsg u v :=
  string_ne_of_data_get 0 (by rw [data0_outOfRange, data0_startGtEnd]; decide)

theorem startLow_ne_endHigh (s e T : Int) : startLowMsg s ≠ endHighMsg e T :=
  string_ne_of_data_get 0 (by rw [data0_startLow, data0_endHigh]; decide)

theorem endHigh_ne_startGtEnd (e T u v : Int) : endHighMsg e T ≠ startGtEndMsg u v :=
  string_ne_of_data_get 0 (by rw [data0_endHigh, data0_startGtEnd]; decide)

theorem startLow_ne_startGtEnd (s u v : Int) : startLowMsg s ≠ startGtEndMsg u v := by
  intro he
  have hm := lt_mem_startGtEnd u v
  rw [← he] at hm
  exact lt_not_mem_startLow s hm

theorem outOfRange_ne_empty (p T : Int) : outOfRangeMsg p T ≠ "" :=
  string_ne_of_data_get 0 (by rw [data0_outOfRange]; decide)

theorem startLow_ne_empty (s : Int) : startLowMsg s ≠ "" :=
  string_ne_of_data_get 0 (by rw [data0_startLow]; decide)

theorem endHigh_ne_empty (e T : Int) : endHighMsg e T ≠ "" :=
  string_ne_of_data_get 0 (by rw [data0_endHigh]; decide)

theorem startGtEnd_ne_empty (s e : Int) : startGtEndMsg s e ≠ "" :=
  string_ne_of_data_get 0 (by rw [data0_startGtEnd]; decide)

theorem outOfRange_ne_format (p T : Int) (s : String) : outOfRangeMsg p T ≠ formatMsg s :=
  string_ne_of_data_get 0 (by rw [data0_outOfRange, data0_format]; decide)

theorem invalidNumber_ne_format (s t : String) : invalidNumberMsg s ≠ formatMsg t :=
  string_ne_of_data_get 13 (by rw [data13_invalidNumber, data13_format]; decide)

theorem invalidLiteral_ne_format (s t : String) : invalidLiteralMsg s ≠ formatMsg t :=
  string_ne_of_data_get 0 (by rw [data0_invalidLiteral, data0_format]; decide)

theorem startLow_ne_format (u : Int) (t : String) : startLowMsg u ≠ formatMsg t :=
  string_ne_of_data_get 0 (by rw [data0_startLow, data0_format]; decide)

theorem endHigh_ne_format (e T : Int) (t : String) : endHighMsg e T ≠ formatMsg t :=
  string_ne_of_data_get 0 (by rw [data0_endHigh, data0_format]; decide)

theorem startGtEnd_ne_format (u v : Int) (t : String) : startGtEndMsg u v ≠ formatMsg t :=
  string_ne_of_data_get 0 (by rw [data0_startGtEnd, data0_format]; decide)

/-! ### Shape-by-shape characterization of parse_page_range -/

theorem mk_ne_empty {a : List Char} (hne : a ≠ []) : String.mk a ≠ "" := by
  intro h
  exact hne (congrArg String.data h)

theorem parse_single_digits (a : List Char) (T : Int) (ha : ∀ c ∈ a, c.isDigit = true)
    (hne : a ≠ []) :
    parse_page_range (String.mk a) T =
      if (digitsVal a : Int) < 1 ∨ (digitsVal a : Int) > T then
        Except.error (outOfRangeMsg (digitsVal a) T)
      else Except.ok ((digitsVal a : Int), (digitsVal a : Int)) := by
  simp only [parse_page_range, splitOnceColon_nocolon a (digits_ne_colon ha),
    pyInt_digits ha hne, singleExcept_outOfRange]

theorem parse_open_end_digits (a : List Char) (T : Int) (ha : ∀ c ∈ a, c.isDigit = true)
    (hne : a ≠ []) :
    parse_page_range (String.mk (a ++ [':'])) T =
      if (digitsVal a : Int) < 1 then Except.error (startLowMsg (digitsVal a))
      else if (digitsVal a : Int) > T then Except.error (startGtEndMsg (digitsVal a) T)
      else Except.ok ((digitsVal a : Int), T) := by
  have hsp : splitOnceColon (String.mk (a ++ [':'])) = [String.mk a, ""] :=
    splitOnceColon_mid a [] (digits_ne_colon ha)
  simp only [parse_page_range, hsp, if_neg (mk_ne_empty hne), pyInt_digits ha hne]
  norm_num

theorem parse_open_start_digits (b : List Char) (T : Int) (hb : ∀ c ∈ b, c.isDigit = true)
    (hne : b ≠ []) :
    parse_page_range (String.mk (':' :: b)) T =
      if (digitsVal b : Int) > T then Except.error (endHighMsg (digitsVal b) T)
      else if (digitsVal b : Int) < 1 then Except.error (startGtEndMsg 1 (digitsVal b))
      else Except.ok (1, (digitsVal b : Int)) := by
  have hsp : splitOnceColon (String.mk (':' :: b)) = ["", String.mk b] :=
    splitOnceColon_mid [] b (by simp)
  simp only [parse_page_range, hsp, if_pos rfl, if_neg (mk_ne_empty hne),
    pyInt_digits hb hne]
  norm_num

theorem parse_two_digits (a b : List Char) (T : Int) (ha : ∀ c ∈ a, c.isDigit = true)
    (hb : ∀ c ∈ b, c.isDigit = true) (hnea : a ≠ []) (hneb : b ≠ []) :
    parse_page_range (String.mk (a ++ ':' :: b)) T =
      if (digitsVal a : Int) < 1 then Except.error (startLowMsg (digitsVal a))
      else if (digitsVal b : Int) > T then Except.error (endHighMsg (digitsVal b) T)
      else if (digitsVal a : Int) > (digitsVal b : Int) then
        Except.error (startGtEndMsg (digitsVal a) (digitsVal b))
      else Except.ok ((digitsVal a : Int), (digitsVal b : Int)) := by
  have hsp : splitOnceColon (String.mk (a ++ ':' :: b)) = [String.mk a, String.mk b] :=
    splitOnceColon_mid a b (digits_ne_colon ha)
  simp only [parse_page_range, hsp, if_neg (mk_ne_empty hnea), if_neg (mk_ne_empty hneb),
    pyInt_digits ha hnea, pyInt_digits hb hneb]

theorem parse_colon_only (T : Int) :
    parse_page_range (":") T =
      if (1 : Int) > T then Except.error (startGtEndMsg 1 T) else Except.ok (1, T) := by
  have hsp : splitOnceColon (":") = ["", ""] := rfl
  simp only [parse_page_range, hsp, if_pos rfl]
  norm_num

theorem parse_ok_bounds {r : String} {T s e : Int}
    (h : parse_page_range r T = Except.ok (s, e)) : 1 ≤ s ∧ s ≤ e ∧ e ≤ T := by
  unfold parse_page_range at h
  rcases hsp : splitOnceColon r with _ | ⟨p0, _ | ⟨q, _ | _⟩⟩ <;> rw [hsp] at h <;>
    dsimp only [] at h
  · simp at h
  · rcases hpy : pyInt p0 with _ | page <;> rw [hpy] at h
    · simp at h
    · by_cases hc : page < 1 ∨ page > T
      · simp [hc] at h
      · simp [hc] at h
        push_neg at hc
        omega
  · rcases hst : (if p0 = "" then some (1 : Int) else pyInt p0) with _ | start <;>
      rw [hst] at h
    · simp at h
    · rcases hen : (if q = "" then some T else pyInt q) with _ | stop <;> rw [hen] at h
      · simp at h
      · by_cases h1 : start < 1
        · simp [h1] at h
        · by_cases h2 : stop > T
          · simp [h1, h2] at h
          · by_cases h3 : start > stop
            · simp [h1, h2, h3] at h
            · simp [h1, h2, h3] at h
              omega
  · simp at h

theorem parse_never_format (r : String) (T : Int) :
    parse_page_range r T ≠ Except.error (formatMsg r) := by
  unfold parse_page_range
  rcases hsp : splitOnceColon r with _ | ⟨p0, _ | ⟨q, _ | l⟩⟩ <;> dsimp only []
  · have := splitOnceColon_len r
    rw [hsp] at this
    simp at this
  · rcases pyInt p0 with _ | page
    · simp only []
      intro h
      have hm := congrArg (fun x => match x with
        | Except.error m => m
        | Except.ok _ => "") h
      simp at hm
      unfold singleExcept at hm
      split at hm
      · exact invalidLiteral_ne_format p0 r hm
      · exact invalidNumber_ne_format p0 r hm
    · by_cases hc : page < 1 ∨ page > T
      · simp only [if_pos hc]
        intro h
        have hm : singleExcept p0 (outOfRangeMsg page T) = formatMsg r := by
          injection h
        unfold singleExcept at hm
        split at hm
        · exact outOfRange_ne_format page T r hm
        · exact invalidNumber_ne_format p0 r hm
      · simp [hc]
  · rcases (if p0 = "" then some (1 : Int) else pyInt p0) with _ | start
    · simp only []
      intro h
      have hm : invalidLiteralMsg p0 = formatMsg r := by injection h
      exact invalidLiteral_ne_format p0 r hm
    · rcases (if q = "" then some T else pyInt q) with _ | stop
      · simp only []
        intro h
        have hm : invalidLiteralMsg q = formatMsg r := by injection h
        exact invalidLiteral_ne_format q r hm
      · by_cases h1 : start < 1
        · simp only [if_pos h1]
          intro h
          have hm : startLowMsg start = formatMsg r := by injection h
          exact startLow_ne_format start r hm
        · by_cases h2 : stop > T
          · simp only [if_neg h1, if_pos h2]
            intro h
            have hm : endHighMsg stop T = formatMsg r := by injection h
            exact endHigh_ne_format stop T r hm
          · by_cases h3 : start > stop
            · simp only [if_neg h1, if_neg h2, if_pos h3]
              intro h
              have hm : startGtEndMsg start stop = formatMsg r := by injection h
              exact startGtEnd_ne_format start stop r hm
            · simp [h1, h2, h3]
  · have := splitOnceColon_len r
    rw [hsp] at this
    simp at this

/-! ### Dictionary and grouping lemmas -/

theorem dictInsert_keys (d : List (α × Finset ℕ)) (k : α) (n : ℕ) :
    (dictInsert d k n).map Prod.fst =
      if k ∈ d.map Prod.fst then d.map Prod.fst else d.map Prod.fst ++ [k] := by
  induction d with
  | nil => simp [dictInsert]
  | cons e rest ih =>
    obtain ⟨k₀, s⟩ := e
    by_cases hk : k₀ = k
    · subst hk
      simp [dictInsert]
    · rw [dictInsert, if_neg hk]
      simp only [List.map_cons, ih]
      by_cases hmem : k ∈ rest.map Prod.fst
      · rw [if_pos hmem, if_pos (by simp [hmem])]
      · rw [if_neg hmem, if_neg (by simp [hmem, Ne.symm hk])]
        simp

theorem lookupSet_dictInsert (d : List (α × Finset ℕ)) (k k' : α) (n : ℕ) :
    lookupSet (dictInsert d k n) k' =
      if k' = k then insert n (lookupSet d k) else lookupSet d k' := by
  induction d with
  | nil =>
    by_cases h : k' = k
    · subst h; simp [dictInsert, lookupSet]
    · simp [dictInsert, lookupSet, h, Ne.symm h]
  | cons e rest ih =>
    obtain ⟨k₀, s⟩ := e
    by_cases h0 : k₀ = k
    · subst h0
      by_cases h1 : k₀ = k'
      · subst h1; simp [dictInsert, lookupSet]
      · simp [dictInsert, lookupSet, h1, Ne.symm h1]
    · by_cases h1 : k₀ = k'
      · subst h1
        simp [dictInsert, lookupSet, h0, Ne.symm h0, ih]
      · simp [dictInsert, lookupSet, h0, h1, ih]

theorem mem_idxSet {ps : List α} {i : ℕ} {k : α} {n : ℕ} :
    n ∈ idxSet ps i k ↔ ∃ t, t < ps.length ∧ ps[t]? = some k ∧ n = t + i := by
  simp only [idxSet, Finset.mem_image, Finset.mem_filter, Finset.mem_range]
  constructor
  · rintro ⟨t, ⟨ht, hg⟩, rfl⟩
    exact ⟨t, ht, hg, rfl⟩
  · rintro ⟨t, ht, hg, rfl⟩
    exact ⟨t, ⟨ht, hg⟩, rfl⟩

theorem idxSet_cons (d : α) (ds : List α) (i : ℕ) (k : α) :
    idxSet (d :: ds) i k = (if k = d then {i} else ∅) ∪ idxSet ds (i + 1) k := by
  ext n
  rw [Finset.mem_union, mem_idxSet, mem_idxSet]
  constructor
  · rintro ⟨t, ht, hg, rfl⟩
    cases t with
    | zero =>
      rw [List.getElem?_cons_zero] at hg
      have hdk : d = k := by injection hg
      subst hdk
      exact Or.inl (by simp)
    | succ t' =>
      rw [List.getElem?_cons_succ] at hg
      exact Or.inr ⟨t', by simpa using ht, hg, by omega⟩
  · rintro (h | ⟨t, ht, hg, rfl⟩)
    · by_cases hkd : k = d
      · rw [if_pos hkd] at h
        rw [Finset.mem_singleton] at h
        subst h hkd
        exact ⟨0, by simp, by simp, by omega⟩
      · rw [if_neg hkd] at h
        simp at h
    · exact ⟨t + 1, by simpa using ht, by simpa using hg, by omega⟩

theorem lookupSet_buildIndex (ps : List α) :
    ∀ (acc : List (α × Finset ℕ)) (i : ℕ) (k : α),
      lookupSet (buildIndex acc i ps) k = lookupSet acc k ∪ idxSet ps i k := by
  induction ps with
  | nil =>
    intro acc i k
    simp [buildIndex, idxSet]
  | cons d ds ih =>
    intro acc i k
    rw [buildIndex, ih, lookupSet_dictInsert, idxSet_cons]
    by_cases h : k = d
    · subst h
      rw [if_pos rfl, if_pos rfl]
      ext n
      simp only [Finset.mem_union, Finset.mem_insert, Finset.mem_singleton]
      tauto
    · rw [if_neg h, if_neg h]
      simp [Finset.union_assoc]

theorem buildIndex_keys (ps : List α) :
    ∀ (acc : List (α × Finset ℕ)) (i : ℕ),
      (buildIndex acc i ps).map Prod.fst =
        acc.map Prod.fst ++ dedupNew (acc.map Prod.fst) ps := by
  induction ps with
  | nil => intro acc i; simp [buildIndex, dedupNew]
  | cons d ds ih =>
    intro acc i
    rw [buildIndex, ih, dictInsert_keys, dedupNew]
    by_cases h : d ∈ acc.map Prod.fst
    · rw [if_pos h, if_pos h]
    · rw [if_neg h, if_neg h]
      simp

theorem dedupNew_sub (seen ps : List α) : ∀ x ∈ dedupNew seen ps, x ∈ ps ∧ x ∉ seen := by
  induction ps generalizing seen with
  | nil => simp [dedupNew]
  | cons d ds ih =>
    intro x hx
    rw [dedupNew] at hx
    by_cases h : d ∈ seen
    · rw [if_pos h] at hx
      obtain ⟨h1, h2⟩ := ih seen x hx
      exact ⟨List.mem_cons_of_mem _ h1, h2⟩
    · rw [if_neg h] at hx
      rcases List.mem_cons.mp hx with rfl | hx'
      · exact ⟨by simp, h⟩
      · obtain ⟨h1, h2⟩ := ih (seen ++ [d]) x hx'
        exact ⟨by simp [h1], fun hs => h2 (by simp [hs])⟩

theorem dedupNew_mem (seen ps : List α) (x : α) :
    x ∈ dedupNew seen ps ↔ x ∈ ps ∧ x ∉ seen := by
  constructor
  · exact dedupNew_sub seen ps x
  · induction ps generalizing seen with
    | nil => simp
    | cons d ds ih =>
      rintro ⟨hx, hs⟩
      rw [dedupNew]
      by_cases h : d ∈ seen
      · rw [if_pos h]
        rcases List.mem_cons.mp hx with rfl | hx'
        · exact absurd h hs
        · exact ih seen ⟨hx', hs⟩
      · rw [if_neg h]
        by_cases hxd : x = d
        · subst hxd; simp
        · rcases List.mem_cons.mp hx with rfl | hx'
          · exact absurd rfl hxd
          · exact List.mem_cons_of_mem _ (ih (seen ++ [d]) ⟨hx', by simp [hs, hxd]⟩)

theorem dedupNew_nodup (seen ps : List α) : (dedupNew seen ps).Nodup := by
  induction ps generalizing seen with
  | nil => simp [dedupNew]
  | cons d ds ih =>
    rw [dedupNew]
    by_cases h : d ∈ seen
    · rw [if_pos h]; exact ih seen
    · rw [if_neg h]
      exact List.nodup_cons.mpr ⟨fun hd => (dedupNew_sub _ _ d hd).2 (by simp), ih (seen ++ [d])⟩

theorem dedupNew_sublist (seen ps : List α) : List.Sublist (dedupNew seen ps) ps := by
  induction ps generalizing seen with
  | nil => simp [dedupNew]
  | cons d ds ih =>
    rw [dedupNew]
    by_cases h : d ∈ seen
    · rw [if_pos h]; exact (ih seen).cons d
    · rw [if_neg h]; exact (ih (seen ++ [d])).cons₂ d

theorem keys_lookup_mem (D : List (α × Finset ℕ)) (k : α) (h : k ∈ D.map Prod.fst) :
    (k, lookupSet D k) ∈ D := by
  induction D with
  | nil => simp at h
  | cons e rest ih =>
    obtain ⟨k₀, s⟩ := e
    by_cases h0 : k₀ = k
    · subst h0; simp [lookupSet]
    · rw [lookupSet, if_neg h0]
      simp only [List.map_cons, List.mem_cons] at h
      rcases h with h | h
      · exact absurd h.symm h0
      · exact List.mem_cons_of_mem _ (ih h)

theorem entry_eq_lookup (D : List (α × Finset ℕ)) (hD : (D.map Prod.fst).Nodup) :
    ∀ e ∈ D, e.2 = lookupSet D e.1 := by
  induction D with
  | nil => simp
  | cons f rest ih =>
    obtain ⟨k₀, s⟩ := f
    rw [List.map_cons, List.nodup_cons] at hD
    intro e he
    rcases List.mem_cons.mp he with rfl | he'
    · simp [lookupSet]
    · have hk : k₀ ≠ e.1 := by
        intro hh
        have hm : e.1 ∈ rest.map Prod.fst := List.mem_map_of_mem Prod.fst he'
        rw [← hh] at hm
        exact hD.1 hm
      rw [lookupSet, if_neg hk]
      exact ih hD.2 e he'

theorem mdp_lookup (pages : List α) (k : α) :
    lookupSet (map_dimensions_to_pages pages) k = idxSet pages 1 k := by
  unfold map_dimensions_to_pages
  rw [lookupSet_buildIndex]
  simp [lookupSet]

theorem mdp_keys (pages : List α) :
    (map_dimensions_to_pages pages).map Prod.fst = dedupNew [] pages := by
  unfold map_dimensions_to_pages
  rw [buildIndex_keys]
  simp

theorem mdp_keys_nodup (pages : List α) :
    ((map_dimensions_to_pages pages).map Prod.fst).Nodup := by
  rw [mdp_keys]; exact dedupNew_nodup [] pages

theorem idxSet_disjoint {ps : List α} {i : ℕ} {k k' : α} (h : k ≠ k') :
    Disjoint (idxSet ps i k) (idxSet ps i k') := by
  rw [Finset.disjoint_left]
  intro n hn hn'
  rw [mem_idxSet] at hn hn'
  obtain ⟨t, ht, hg, hn⟩ := hn
  obtain ⟨t', ht', hg', hn'⟩ := hn'
  have htt : t = t' := by omega
  subst htt
  rw [hg] at hg'
  exact h (by injection hg')

theorem mem_unionSets {D : List (α × Finset ℕ)} {n : ℕ} :
    n ∈ unionSets D ↔ ∃ e ∈ D, n ∈ e.2 := by
  induction D with
  | nil => simp [unionSets]
  | cons e rest ih =>
    rw [show unionSets (e :: rest) = e.2 ∪ unionSets rest from rfl, Finset.mem_union, ih]
    constructor
    · rintro (h | ⟨f, hf, hn⟩)
      · exact ⟨e, by simp, h⟩
      · exact ⟨f, by simp [hf], hn⟩
    · rintro ⟨f, hf, hn⟩
      rcases List.mem_cons.mp hf with rfl | hf'
      · exact Or.inl hn
      · exact Or.inr ⟨f, hf', hn⟩

theorem mdp_union (pages : List α) :
    unionSets (map_dimensions_to_pages pages) = Finset.Icc 1 pages.length := by
  ext n
  rw [mem_unionSets, Finset.mem_Icc]
  constructor
  · rintro ⟨e, he, hn⟩
    have he2 : e.2 = lookupSet (map_dimensions_to_pages pages) e.1 :=
      entry_eq_lookup _ (mdp_keys_nodup pages) e he
    rw [he2, mdp_lookup, mem_idxSet] at hn
    obtain ⟨t, ht, _, rfl⟩ := hn
    omega
  · rintro ⟨h1, h2⟩
    have ht : n - 1 < pages.length := by omega
    rcases hg : pages[n-1]? with _ | k
    · rw [List.getElem?_eq_none_iff] at hg
      omega
    · have hkmem : k ∈ (map_dimensions_to_pages pages).map Prod.fst := by
        rw [mdp_keys, dedupNew_mem]
        exact ⟨List.getElem?_mem hg, by simp⟩
      refine ⟨(k, lookupSet (map_dimensions_to_pages pages) k), keys_lookup_mem _ _ hkmem, ?_⟩
      rw [mdp_lookup, mem_idxSet]
      exact ⟨n - 1, ht, hg, by omega⟩

theorem mdp_pairwise_disjoint (pages : List α) :
    (map_dimensions_to_pages pages).Pairwise fun e f => Disjoint e.2 f.2 := by
  have hn : ((map_dimensions_to_pages pages).map Prod.fst).Pairwise (· ≠ ·) :=
    mdp_keys_nodup pages
  rw [List.pairwise_map] at hn
  refine List.Pairwise.imp_of_mem ?_ hn
  intro a b ha hb hne
  have ha2 : a.2 = lookupSet (map_dimensions_to_pages pages) a.1 :=
    entry_eq_lookup _ (mdp_keys_nodup pages) a ha
  have hb2 : b.2 = lookupSet (map_dimensions_to_pages pages) b.1 :=
    entry_eq_lookup _ (mdp_keys_nodup pages) b hb
  rw [ha2, hb2, mdp_lookup, mdp_lookup]
  exact idxSet_disjoint hne

theorem mdp_self_mem (pages : List α) (i : ℕ) (h : i < pages.length) :
    i + 1 ∈ lookupSet (map_dimensions_to_pages pages) (pages.get ⟨i, h⟩) := by
  rw [mdp_lookup, mem_idxSet]
  exact ⟨i, h, by simp [List.getElem?_eq_getElem h], by omega⟩

/-! ### Page-list slicing and filtering lemmas -/

theorem getElem_isSome_iff {l : List α} {n : ℕ} : (l[n]?).isSome = true ↔ n < l.length := by
  rcases h : l[n]? with _ | v
  · rw [List.getElem?_eq_none_iff] at h; simp; omega
  · obtain ⟨hlt, -⟩ := List.getElem?_eq_some.mp h
    simp [hlt]

theorem filterMap_singleton {β γ : Type} (f : β → Option γ) (a : β) :
    List.filterMap f [a] = (f a).toList := by
  rcases h : f a with _ | v <;> simp [List.filterMap_cons, h]

theorem filterMap_intRange (l : List α) (a : Int) (c : ℕ) (h0 : 0 ≤ a)
    (h : a.toNat + c ≤ l.length) :
    ((List.range c).map fun t : ℕ => a + (t : Int)).filterMap (fun i => l[i.toNat]?) =
      (l.drop a.toNat).take c := by
  induction c with
  | zero => simp
  | succ c ih =>
    rw [List.range_succ, List.map_append, List.filterMap_append, ih (by omega),
      List.take_succ]
    congr 1
    simp only [List.map_cons, List.map_nil]
    rw [filterMap_singleton]
    have ht : (a + (c : Int)).toNat = a.toNat + c := by omega
    rw [ht, ← List.getElem?_drop]

theorem excerpt_out_slice (pages : List α) (s e : Int) (h1 : 1 ≤ s) (h2 : s ≤ e)
    (h3 : e ≤ pages.length) :
    (intRange (s - 1) e).filterMap (fun i => pages[i.toNat]?) =
      (pages.drop (s - 1).toNat).take (e - s + 1).toNat := by
  have hR : intRange (s - 1) e = (List.range (e - s + 1).toNat).map
      fun t : ℕ => (s - 1) + (t : Int) := by
    unfold intRange
    have hn : (e - (s - 1)).toNat = (e - s + 1).toNat := by omega
    rw [hn]
  have hle : (s - 1).toNat + (e - s + 1).toNat ≤ pages.length := by omega
  rw [hR, filterMap_intRange pages (s - 1) (e - s + 1).toNat (by omega) hle]

theorem enumFrom_filter_map_snd (excl : Finset ℕ) (ps : List α) :
    ∀ n : ℕ,
      ((List.enumFrom n ps).filter fun p => p.1 ∉ excl).map Prod.snd =
        (List.range' n ps.length).filterMap
          (fun i => if i ∈ excl then none else ps[i - n]?) := by
  induction ps with
  | nil => intro n; simp
  | cons d ds ih =>
    intro n
    rw [List.enumFrom_cons, List.length_cons, List.range'_succ]
    rw [List.filter_cons, List.filterMap_cons]
    have hcong : ∀ i ∈ List.range' (n + 1) ds.length,
        (if i ∈ excl then none else (d :: ds)[i - n]?) =
          (if i ∈ excl then none else ds[i - (n + 1)]?) := by
      intro i hi
      rw [List.mem_range'_1] at hi
      by_cases hie : i ∈ excl
      · simp [hie]
      · rw [if_neg hie, if_neg hie]
        have hin : i - n = (i - (n + 1)) + 1 := by omega
        rw [hin, List.getElem?_cons_succ]
    have hz : (d :: ds)[n - n]? = some d := by
      have hnn : n - n = 0 := by omega
      rw [hnn, List.getElem?_cons_zero]
    have ih2 := ih (n + 1)
    simp only [decide_not] at ih2
    by_cases h : n ∈ excl <;>
      simp [h, List.filterMap_congr hcong, hz, ih2]

theorem enumFrom_fst_bound {x : ℕ × α} {n : ℕ} {l : List α} (hx : x ∈ List.enumFrom n l) :
    n ≤ x.1 ∧ x.1 < n + l.length := by
  have hm : x.1 ∈ (List.enumFrom n l).map Prod.fst := List.mem_map_of_mem Prod.fst hx
  rw [List.enumFrom_map_fst] at hm
  exact List.mem_range'_1.mp hm

/-! ### Selection-loop lemmas -/

theorem selectStep_empty (dlist : List α) : selectStep dlist "" = SelStep.cancelled := rfl

theorem selectStep_cancelled_iff (dlist : List α) (line : String) :
    selectStep dlist line = SelStep.cancelled ↔ line = "" := by
  constructor
  · intro h
    by_contra hne
    unfold selectStep at h
    rw [if_neg hne] at h
    rcases hr : resolveAll dlist (splitOnComma line) with _ | picks <;>
      rw [hr] at h <;> simp at h
  · rintro rfl; rfl

theorem pyIndex_isSome (l : List α) (i : Int) :
    (pyIndex l i).isSome = true ↔ -(l.length : Int) ≤ i ∧ i < (l.length : Int) := by
  unfold pyIndex
  by_cases h0 : 0 ≤ i
  · rw [if_pos h0, getElem_isSome_iff]
    omega
  · rw [if_neg h0]
    by_cases h1 : i.natAbs ≤ l.length
    · rw [if_pos h1, getElem_isSome_iff]
      omega
    · rw [if_neg h1]
      simp only [Option.isSome_none, Bool.false_eq_true, false_iff]
      omega

theorem pyIndex_nonneg (l : List α) (i : Int) (h : 0 ≤ i) : pyIndex l i = l[i.toNat]? := by
  unfold pyIndex
  rw [if_pos h]

theorem pyIndex_neg (l : List α) (i : Int) (h : i < 0) (h2 : i.natAbs ≤ l.length) :
    pyIndex l i = l[l.length - i.natAbs]? := by
  unfold pyIndex
  rw [if_neg (by omega), if_pos h2]

theorem resolveAll_none_iff (dlist : List α) (ts : List String) :
    resolveAll dlist ts = none ↔ ∃ t ∈ ts, resolveToken dlist t = none := by
  induction ts with
  | nil => simp [resolveAll]
  | cons t ts ih =>
    constructor
    · intro h
      rw [resolveAll] at h
      rcases ht : resolveToken dlist t with _ | v
      · exact ⟨t, by simp, ht⟩
      · rw [ht] at h
        rcases h2 : resolveAll dlist ts with _ | vs
        · obtain ⟨u, hu, hru⟩ := ih.mp h2
          exact ⟨u, by simp [hu], hru⟩
        · rw [h2] at h; simp at h
    · rintro ⟨u, hu, hru⟩
      rw [resolveAll]
      rcases List.mem_cons.mp hu with rfl | hu'
      · rw [hru]
      · rcases ht : resolveToken dlist t with _ | v
        · rfl
        · rw [ih.mpr ⟨u, hu', hru⟩]

theorem resolveAll_eq_map (dlist : List α) (ts : List String) (f : String → α)
    (h : ∀ t ∈ ts, resolveToken dlist t = some (f t)) :
    resolveAll dlist ts = some (ts.map f) := by
  induction ts with
  | nil => rfl
  | cons t ts ih =>
    rw [resolveAll, h t (by simp), ih fun u hu => h u (by simp [hu])]
    rfl

theorem selectStep_invalid_of_bad (dlist : List α) (line : String) (hne : line ≠ "")
    (h : ∃ t ∈ splitOnComma line, resolveToken dlist t = none) :
    selectStep dlist line = SelStep.invalid := by
  unfold selectStep
  rw [if_neg hne, (resolveAll_none_iff dlist (splitOnComma line)).mpr h]

theorem selectStep_valid (dlist : List α) (line : String) (hne : line ≠ "")
    (f : String → α) (h : ∀ t ∈ splitOnComma line, resolveToken dlist t = some (f t)) :
    selectStep dlist line = SelStep.selected ((splitOnComma line).map f).toFinset := by
  unfold selectStep
  rw [if_neg hne, resolveAll_eq_map dlist _ f h]

theorem selectLoop_invalid_step (dlist : List α) (line : String) (rest : List String)
    (h : selectStep dlist line = SelStep.invalid) :
    selectLoop dlist (line :: rest) =
      ((selectLoop dlist rest).1, invalidInputMsg :: (selectLoop dlist rest).2) := by
  rw [selectLoop, h]

theorem selectLoop_cancel (dlist : List α) (rest : List String) :
    selectLoop dlist ("" :: rest) = (some none, []) := by
  rw [selectLoop, selectStep_empty]

theorem selectLoop_exits (dlist : List α) (inputs : List String) (r : Option (Finset α))
    (h : (selectLoop dlist inputs).1 = some r) :
    ∃ line ∈ inputs, (line = "" ∧ r = none) ∨
      ∃ s, selectStep dlist line = SelStep.selected s ∧ r = some s := by
  induction inputs with
  | nil => simp [selectLoop] at h
  | cons line rest ih =>
    rw [selectLoop] at h
    cases hsel : selectStep dlist line with
    | cancelled =>
      rw [hsel] at h
      simp only [] at h
      injection h with h
      exact ⟨line, by simp, Or.inl ⟨(selectStep_cancelled_iff dlist line).mp hsel, h.symm⟩⟩
    | selected s =>
      rw [hsel] at h
      simp only [] at h
      injection h with h
      exact ⟨line, by simp, Or.inr ⟨s, hsel, h.symm⟩⟩
    | invalid =>
      rw [hsel] at h
      simp only [] at h
      obtain ⟨l', hl', hcase⟩ := ih h
      exact ⟨l', by simp [hl'], hcase⟩

/-! ### Claim theorems -/

/-- Claim C1 (counterexample): the claim's semantics table says `"N:"` always
returns `(N, T)` and `":N"` fails only when `N > T`; on the code, `"7:"` with
5 pages fails (start 7 > end 5), `"0:"` fails (start 0 < 1), and `":0"` with
5 pages fails (start 1 > end 0). -/
theorem parse_page_range_claim_counterexample :
    parse_page_range ("7:") 5 = Except.error (startGtEndMsg 7 5) ∧
    parse_page_range ("0:") 5 = Except.error (startLowMsg 0) ∧
    parse_page_range (":0") 5 = Except.error (startGtEndMsg 1 0) :=
  ⟨rfl, rfl, rfl⟩

/-- Claim C1 (amended): for every total `T` and digit strings `N`, `M`:
bare `"N"` returns `(N, N)` and fails iff `N < 1 ∨ N > T`; `"N:"` returns
`(N, T)` and fails iff `N < 1 ∨ N > T`; `":N"` returns `(1, N)` and fails iff
`N > T ∨ N < 1`; `"N:M"` returns `(N, M)` and fails iff
`N < 1 ∨ M > T ∨ N > M`; and the four failure messages are non-empty and
pairwise distinct. -/
theorem parse_page_range_shapes :
    (∀ (a : List Char) (T : Int), (∀ c ∈ a, c.isDigit = true) → a ≠ [] →
      parse_page_range (String.mk a) T =
        if (digitsVal a : Int) < 1 ∨ (digitsVal a : Int) > T then
          Except.error (outOfRangeMsg (digitsVal a) T)
        else Except.ok ((digitsVal a : Int), (digitsVal a : Int))) ∧
    (∀ (a : List Char) (T : Int), (∀ c ∈ a, c.isDigit = true) → a ≠ [] →
      parse_page_range (String.mk (a ++ [':'])) T =
        if (digitsVal a : Int) < 1 then Except.error (startLowMsg (digitsVal a))
        else if (digitsVal a : Int) > T then
          Except.error (startGtEndMsg (digitsVal a) T)
        else Except.ok ((digitsVal a : Int), T)) ∧
    (∀ (b : List Char) (T : Int), (∀ c ∈ b, c.isDigit = true) → b ≠ [] →
      parse_page_range (String.mk (':' :: b)) T =
        if (digitsVal b : Int) > T then Except.error (endHighMsg (digitsVal b) T)
        else if (digitsVal b : Int) < 1 then
          Except.error (startGtEndMsg 1 (digitsVal b))
        else Except.ok (1, (digitsVal b : Int))) ∧
    (∀ (a b : List Char) (T : Int), (∀ c ∈ a, c.isDigit = true) →
      (∀ c ∈ b, c.isDigit = true) → a ≠ [] → b ≠ [] →
      parse_page_range (String.mk (a ++ ':' :: b)) T =
        if (digitsVal a : Int) < 1 then Except.error (startLowMsg (digitsVal a))
        else if (digitsVal b : Int) > T then
          Except.error (endHighMsg (digitsVal b) T)
        else if (digitsVal a : Int) > (digitsVal b : Int) then
          Except.error (startGtEndMsg (digitsVal a) (digitsVal b))
        else Except.ok ((digitsVal a : Int), (digitsVal b : Int))) ∧
    (∀ p T s e u v : Int,
      outOfRangeMsg p T ≠ "" ∧ startLowMsg s ≠ "" ∧ endHighMsg e T ≠ "" ∧
      startGtEndMsg s e ≠ "" ∧
      outOfRangeMsg p T ≠ startLowMsg s ∧ outOfRangeMsg p T ≠ endHighMsg e u ∧
      outOfRangeMsg p T ≠ startGtEndMsg s e ∧ startLowMsg s ≠ endHighMsg e u ∧
      startLowMsg s ≠ startGtEndMsg u v ∧ endHighMsg e u ≠ startGtEndMsg s v) :=
  ⟨parse_single_digits, parse_open_end_digits, parse_open_start_digits, parse_two_digits,
    fun p T s e u v =>
      ⟨outOfRange_ne_empty p T, startLow_ne_empty s, endHigh_ne_empty e T,
        startGtEnd_ne_empty s e, outOfRange_ne_startLow p T s,
        outOfRange_ne_endHigh p T e u, outOfRange_ne_startGtEnd p T s e,
        startLow_ne_endHigh s e u, startLow_ne_startGtEnd s u v,
        endHigh_ne_startGtEnd e u s v⟩⟩

/-- Witness for C1: the four shapes evaluated on a 5-page document. -/
theorem parse_page_range_shapes_witness :
    parse_page_range (String.mk ['2']) 5 = Except.ok (2, 2) ∧
    parse_page_range (String.mk ['2', ':']) 5 = Except.ok (2, 5) ∧
    parse_page_range (String.mk [':', '3']) 5 = Except.ok (1, 3) ∧
    parse_page_range (String.mk ['2', ':', '4']) 5 = Except.ok (2, 4) ∧
    parse_page_range (String.mk ['7']) 5 = Except.error (outOfRangeMsg 7 5) := by
  have h := parse_page_range_shapes
  exact ⟨(h.1 ['2'] 5 (by decide) (by decide)).trans (by rfl),
    (h.2.1 ['2'] 5 (by decide) (by decide)).trans (by rfl),
    (h.2.2.1 ['3'] 5 (by decide) (by decide)).trans (by rfl),
    (h.2.2.2.1 ['2'] ['4'] 5 (by decide) (by decide) (by decide) (by decide)).trans (by rfl),
    (h.1 ['7'] 5 (by decide) (by decide)).trans (by rfl)⟩

/-- Claim C2: for every document, the page sets of the dimension index are
pairwise disjoint, their union is `{1, ..., len}`, every page's 1-based
ordinal lies in the set keyed by its own dimension, and each dimension
appears as exactly one key (duplicates merged regardless of position). -/
theorem map_dimensions_partition (pages : List α) :
    (map_dimensions_to_pages pages).Pairwise (fun e f => Disjoint e.2 f.2) ∧
    unionSets (map_dimensions_to_pages pages) = Finset.Icc 1 pages.length ∧
    (∀ (i : ℕ) (h : i < pages.length),
      i + 1 ∈ lookupSet (map_dimensions_to_pages pages) (pages.get ⟨i, h⟩)) ∧
    ((map_dimensions_to_pages pages).map Prod.fst).Nodup :=
  ⟨mdp_pairwise_disjoint pages, mdp_union pages, mdp_self_mem pages, mdp_keys_nodup pages⟩

/-- Witness for C2 on a document with a non-contiguous duplicate dimension. -/
theorem map_dimensions_partition_witness :
    unionSets (map_dimensions_to_pages [((612 : ℕ), (792 : ℕ)), (300, 300), (612, 792)]) =
      Finset.Icc 1 3 ∧
    3 ∈ lookupSet (map_dimensions_to_pages [((612 : ℕ), (792 : ℕ)), (300, 300), (612, 792)])
      (612, 792) := by
  have h := map_dimensions_partition [((612 : ℕ), (792 : ℕ)), (300, 300), (612, 792)]
  refine ⟨by simpa using h.2.1, ?_⟩
  have h3 := h.2.2.1 2 (by decide)
  simpa using h3

/-- Claim C10: the key order of the dimension index — hence the order and
zero-based indices of the listing `select_dimensions` prints — is the order
of first appearance of each distinct dimension in page order (`dedupNew []`);
in particular it is a subsequence of the page order, has no duplicates, and
contains exactly the dimensions occurring in the document. -/
theorem dimension_listing_order (pages : List α) :
    dimensions_list (map_dimensions_to_pages pages) = dedupNew [] pages ∧
    List.Sublist (dedupNew [] pages) pages ∧
    (dedupNew [] pages).Nodup ∧
    (∀ k, k ∈ dedupNew [] pages ↔ k ∈ pages) := by
  refine ⟨mdp_keys pages, dedupNew_sublist [] pages, dedupNew_nodup [] pages, fun k => ?_⟩
  rw [dedupNew_mem]
  simp

/-- Witness for C10: the listing of a document with an interleaved duplicate. -/
theorem dimension_listing_order_witness :
    dimensions_list (map_dimensions_to_pages [((612 : ℕ), (792 : ℕ)), (300, 300), (612, 792)]) =
      [((612 : ℕ), (792 : ℕ)), (300, 300)] := by
  have h := (dimension_listing_order [((612 : ℕ), (792 : ℕ)), (300, 300), (612, 792)]).1
  rw [h]
  decide

/-- Claim C5 (counterexample): the claim says `":"` matches no grammar shape
and never yields a pair; the code parses it as `(1, T)`. -/
theorem parse_colon_counterexample : parse_page_range (":") 5 = Except.ok (1, 5) := rfl

/-- Claim C5 (amended): `":"` parses as a both-open range: it returns
`(1, T)` for `T ≥ 1` and fails (start 1 > end T) exactly when `T < 1`. -/
theorem parse_colon_amended (T : Int) :
    parse_page_range (":") T =
      if T < 1 then Except.error (startGtEndMsg 1 T) else Except.ok (1, T) :=
  parse_colon_only T

/-- Witness for C5 (amended) at `T = 0`. -/
theorem parse_colon_amended_witness :
    parse_page_range (":") 0 = Except.error (startGtEndMsg 1 0) :=
  (parse_colon_amended 0).trans (by rfl)

/-- Claim C9: splitting on ":" with one split always yields one or two parts,
so the final "Invalid page range format" branch is unreachable: the parser
never returns that error, and `"1:2:3"` instead fails in the integer
conversion of its second part `"2:3"`. -/
theorem parse_format_branch_unreachable :
    (∀ s : String, (splitOnceColon s).length = 1 ∨ (splitOnceColon s).length = 2) ∧
    (∀ (s : String) (T : Int), parse_page_range s T ≠ Except.error (formatMsg s)) ∧
    (∀ T : Int, parse_page_range ("1:2:3") T = Except.error (invalidLiteralMsg ("2:3"))) :=
  ⟨splitOnceColon_len, parse_never_format, fun _ => rfl⟩

/-- Witness for C9 at concrete inputs. -/
theorem parse_format_branch_unreachable_witness :
    parse_page_range ("::") 5 ≠ Except.error (formatMsg ("::")) ∧
    parse_page_range ("1:2:3") 5 = Except.error (invalidLiteralMsg ("2:3")) :=
  ⟨parse_format_branch_unreachable.2.1 ("::") 5,
    parse_format_branch_unreachable.2.2 5⟩

/-- Claim C6 (counterexample): when `-o` is omitted, the temp file is created
before the path-equality check; if the generated temp path coincides with the
input path the command exits 1 but a file has been created, contradicting
"no file on disk is created". -/
theorem path_equal_counterexample :
    filter_command ("a.pdf") none ("a.pdf") [((612 : ℕ), (792 : ℕ))] [] =
      some ⟨1, [("a.pdf")], none, some precondMsg⟩ ∧
    excerpt_command ("a.pdf") none ("a.pdf") [((612 : ℕ), (792 : ℕ))] ("1") =
      ⟨1, [("a.pdf")], none, some precondMsg⟩ ∧
    ([("a.pdf")] : List String) ≠ [] :=
  ⟨rfl, rfl, by decide⟩

/-- Claim C6 (amended): whenever the input path equals the effective output
path, both commands report the violation and return exit 1 without opening
the input or saving anything; with an explicit output path nothing is created
at all, and with the output path omitted the already-created temp file is the
only file created. -/
theorem path_equal_precondition (pages : List α) (input tmp : String)
    (outputArg : Option String) (stdin : List String) (r : String)
    (heq : input = outputArg.getD tmp) :
    filter_command input outputArg tmp pages stdin =
      some ⟨1, if outputArg.isSome then [] else [tmp], none, some precondMsg⟩ ∧
    excerpt_command input outputArg tmp pages r =
      ⟨1, if outputArg.isSome then [] else [tmp], none, some precondMsg⟩ := by
  constructor
  · simp [filter_command, heq]
  · simp [excerpt_command, heq]

/-- Witness for C6 (amended): explicit `-o` equal to the input. -/
theorem path_equal_precondition_witness :
    filter_command ("x.pdf") (some ("x.pdf")) ("t.pdf") [((612 : ℕ), (792 : ℕ))] [] =
      some ⟨1, [], none, some precondMsg⟩ := by
  have h := path_equal_precondition (α := ℕ × ℕ) [(612, 792)] ("x.pdf") ("t.pdf")
    (some ("x.pdf")) [] ("1") (by rfl)
  exact h.1.trans (by rfl)

/-- Claim C7: an empty line at the selection prompt makes select_dimensions
return the no-selection value (`None`), and the Filter command then reports
an informational message, returns exit 1, and saves no output document. -/
theorem filter_cancel_no_output (pages : List α) (input tmp : String)
    (outputArg : Option String) (rest : List String)
    (hne : input ≠ outputArg.getD tmp) :
    (select_dimensions (map_dimensions_to_pages pages) ("" :: rest)).1 = some none ∧
    filter_command input outputArg tmp pages ("" :: rest) =
      some ⟨1, if outputArg.isSome then [] else [tmp], none, some cancelInfoMsg⟩ := by
  constructor
  · unfold select_dimensions
    rw [selectLoop_cancel]
  · simp [filter_command, select_dimensions, selectLoop_cancel, hne]

/-- Witness for C7 at a concrete two-group document. -/
theorem filter_cancel_no_output_witness :
    filter_command ("in.pdf") (some ("out.pdf")) ("t.pdf")
      [((612 : ℕ), (792 : ℕ)), (300, 300)] [""] =
      some ⟨1, [], none, some cancelInfoMsg⟩ := by
  have h := filter_cancel_no_output (α := ℕ × ℕ) [(612, 792), (300, 300)] ("in.pdf")
    ("t.pdf") (some ("out.pdf")) [] (by decide)
  exact h.2.trans (by rfl)

/-- Claim C8 (counterexample): the token "-1" does not denote an index in
`0..n-1`, yet the loop accepts it (Python negative indexing) and returns the
last listed dimension instead of printing an error and re-prompting. -/
theorem select_negative_index_counterexample :
    selectLoop [(10 : ℕ), 20] [("-1")] = (some (some {20}), []) := by decide

/-- Claim C8 (amended): every comma-separated token of a non-empty line is
interpreted as a Python-style index into the listing of `n` dimensions:
resolution succeeds exactly when the token denotes an integer `i` with
`-n ≤ i < n` (nonnegative `i` resolves to entry `i`, negative `i` to entry
`n + i`); a line with an unresolvable token prints the error message and
re-prompts on the remaining input; a fully valid line returns the selected
set; and the loop exits only via an empty line or a fully valid line. -/
theorem select_dimensions_tokens :
    ∀ dlist : List α,
    (∀ i : Int, (pyIndex dlist i).isSome = true ↔
      -(dlist.length : Int) ≤ i ∧ i < (dlist.length : Int)) ∧
    (∀ i : Int, 0 ≤ i → pyIndex dlist i = dlist[i.toNat]?) ∧
    (∀ i : Int, i < 0 → i.natAbs ≤ dlist.length →
      pyIndex dlist i = dlist[dlist.length - i.natAbs]?) ∧
    (∀ (line : String) (rest : List String), line ≠ "" →
      (∃ t ∈ splitOnComma line, resolveToken dlist t = none) →
      selectLoop dlist (line :: rest) =
        ((selectLoop dlist rest).1, invalidInputMsg :: (selectLoop dlist rest).2)) ∧
    (∀ (line : String) (f : String → α), line ≠ "" →
      (∀ t ∈ splitOnComma line, resolveToken dlist t = some (f t)) →
      selectStep dlist line = SelStep.selected ((splitOnComma line).map f).toFinset) ∧
    (∀ (inputs : List String) (r : Option (Finset α)),
      (selectLoop dlist inputs).1 = some r →
      ∃ line ∈ inputs, (line = "" ∧ r = none) ∨
        ∃ s, selectStep dlist line = SelStep.selected s ∧ r = some s) := by
  intro dlist
  refine ⟨pyIndex_isSome dlist, pyIndex_nonneg dlist,
    fun i h1 h2 => pyIndex_neg dlist i h1 h2,
    fun line rest hne hbad =>
      selectLoop_invalid_step dlist line rest (selectStep_invalid_of_bad dlist line hne hbad),
    fun line f hne h => selectStep_valid dlist line hne f h,
    selectLoop_exits dlist⟩

/-- Witness for C8 (amended): an out-of-range token "5" prints the error and
re-prompts; the next line "1" selects the second dimension. -/
theorem select_dimensions_tokens_witness :
    selectLoop [(10 : ℕ), 20] [("5"), ("1")] = (some (some {20}), [invalidInputMsg]) := by
  have h := (select_dimensions_tokens [(10 : ℕ), 20]).2.2.2.1 ("5") [("1")] (by decide)
    ⟨("5"), by decide, by decide⟩
  rw [h]
  decide

/-- Claim C3: with a selection returned and distinct paths, the Filter
command exits 0 and saves, at the output path, exactly those pages whose
1-based ordinal is not in the union of the selected dimensions' page sets,
in original order; selecting every listed dimension leaves zero pages. -/
theorem filter_command_excludes_selected (pages : List α) (input tmp : String)
    (outputArg : Option String) (stdin : List String) (sel : Finset α)
    (hne : input ≠ outputArg.getD tmp)
    (hsel : (select_dimensions (map_dimensions_to_pages pages) stdin).1 = some (some sel))
    (hnonempty : sel.Nonempty) :
    filter_command input outputArg tmp pages stdin =
      some ⟨0, if outputArg.isSome then [] else [tmp],
        some (outputArg.getD tmp,
          (List.range' 1 pages.length).filterMap fun i =>
            if i ∈ sel.sup (lookupSet (map_dimensions_to_pages pages)) then none
            else pages[i - 1]?),
        some ("Filtered PDF saved as " ++ outputArg.getD tmp)⟩ ∧
    ((∀ k ∈ dimensions_list (map_dimensions_to_pages pages), k ∈ sel) →
      ((List.range' 1 pages.length).filterMap fun i =>
        if i ∈ sel.sup (lookupSet (map_dimensions_to_pages pages)) then none
        else pages[i - 1]?) = []) := by
  constructor
  · simp only [filter_command]
    rw [if_neg hne, hsel]
    dsimp only []
    rw [enumFrom_filter_map_snd (sel.sup (lookupSet (map_dimensions_to_pages pages))) pages 1]
  · intro hall
    rw [List.filterMap_eq_nil_iff]
    intro i hi
    rw [List.mem_range'_1] at hi
    have hlt : i - 1 < pages.length := by omega
    have hmem : i ∈ sel.sup (lookupSet (map_dimensions_to_pages pages)) := by
      have hself := mdp_self_mem pages (i - 1) hlt
      have hkey : pages.get ⟨i - 1, hlt⟩ ∈ dimensions_list (map_dimensions_to_pages pages) := by
        unfold dimensions_list
        rw [mdp_keys, dedupNew_mem]
        exact ⟨List.get_mem pages (i - 1) hlt, by simp⟩
      have hks : pages.get ⟨i - 1, hlt⟩ ∈ sel := hall _ hkey
      have hle := Finset.le_sup (f := lookupSet (map_dimensions_to_pages pages)) hks
      have : i - 1 + 1 = i := by omega
      rw [this] at hself
      exact hle hself
    rw [if_pos hmem]

/-- Witness for C3: dropping the 612x792 group of a three-page document keeps
exactly the middle 300x300 page. -/
theorem filter_command_excludes_selected_witness :
    filter_command ("in.pdf") (some ("out.pdf")) ("t.pdf")
      [((612 : ℕ), (792 : ℕ)), (300, 300), (612, 792)] [("0")] =
      some ⟨0, [], some (("out.pdf"), [((300 : ℕ), (300 : ℕ))]),
        some ("Filtered PDF saved as out.pdf")⟩ := by
  have h := filter_command_excludes_selected
    [((612 : ℕ), (792 : ℕ)), (300, 300), (612, 792)] ("in.pdf") ("t.pdf")
    (some ("out.pdf")) [("0")] {(612, 792)} (by decide) (by decide)
    ⟨(612, 792), by decide⟩
  exact h.1.trans (by decide)

/-- Claim C4: when the range parses to `(s, e)` on a `T`-page document and the
paths differ, Excerpt exits 0 and saves exactly pages `s..e` in original order
(`e - s + 1 ≥ 1` of them), reporting that count and pluralizing "page" iff the
count is not exactly 1. -/
theorem excerpt_command_slice (pages : List α) (input tmp : String)
    (outputArg : Option String) (r : String) (s e : Int)
    (hne : input ≠ outputArg.getD tmp)
    (hp : parse_page_range r (pages.length : Int) = Except.ok (s, e)) :
    excerpt_command input outputArg tmp pages r =
      ⟨0, if outputArg.isSome then [] else [tmp],
        some (outputArg.getD tmp, (pages.drop (s - 1).toNat).take (e - s + 1).toNat),
        some ("Extracted " ++ intRepr (e - s + 1) ++ " page" ++
          (if e - s + 1 ≠ 1 then "s" else "") ++ " (" ++ intRepr s ++ ":" ++
          intRepr e ++ ") to " ++ outputArg.getD tmp)⟩ ∧
    ((pages.drop (s - 1).toNat).take (e - s + 1).toNat).length = (e - s + 1).toNat ∧
    1 ≤ e - s + 1 := by
  obtain ⟨h1, h2, h3⟩ := parse_ok_bounds hp
  refine ⟨?_, ?_, by omega⟩
  · simp only [excerpt_command]
    rw [if_neg hne, hp]
    dsimp only []
    rw [excerpt_out_slice pages s e h1 h2 h3]
  · rw [List.length_take, List.length_drop]
    omega

/-- Witness for C4: `excerpt 2:4` on a 5-page document extracts pages 2,3,4
and reports "Extracted 3 pages (2:4) to out.pdf". -/
theorem excerpt_command_slice_witness :
    excerpt_command ("in.pdf") (some ("out.pdf")) ("t.pdf") [(1 : ℕ), 2, 3, 4, 5] ("2:4") =
      ⟨0, [], some (("out.pdf"), [(2 : ℕ), 3, 4]),
        some ("Extracted 3 pages (2:4) to out.pdf")⟩ := by
  have h := excerpt_command_slice [(1 : ℕ), 2, 3, 4, 5] ("in.pdf") ("t.pdf")
    (some ("out.pdf")) ("2:4") 2 4 (by decide) (by rfl)
  exact h.1.trans (by decide)

